import Mathlib

/-
A verification development for the quickquest backend: a shallow embedding
of the session / leaderboard / timer logic of the socket.io game server
(src/server.js, src/index.js) together with proofs about it.

The repository holds three revisions of the server.  The newest Firestore
revision (src/server.js, first document: shuffle, endEvent, createEvent,
joinEvent, startGame, restartGame) is embedded as the `ServerState` model;
the in-memory revision (src/index.js, first document: joinEvent, submitTime)
is embedded as the `MemStore` model; the older Firestore revision supplies
`generateCode`, the same probe loop that the newest revision inlines in its
createEvent handler.

JS objects used as string-keyed maps become functions `String → Option _`
(or `String → List _` for sub-collections); socket/room emissions become an
explicit, ordered effect list; the stream of `Math.random()` draws becomes an
explicit argument (`r : Nat → Nat`, consumed modulo the required bound);
`await`ed store writes that may throw are modelled by a `persistOk` flag where
a claim depends on the failure path.
-/

namespace QuickQuest

/-- JS-object map write `m[k] = v`; with `v := none` it is `delete m[k]`. -/
def fupdate {V : Type} (m : String → V) (k : String) (v : V) : String → V :=
  fun q => if q = k then v else m q

/-! ### Shuffle (Fisher–Yates), `shuffle` in src/server.js -/

/-- Payload tokens of `scrambledOrder`: numeric tile indices for
image-scramble, image asset paths for matching-pairs. -/
inductive Token : Type
  | num (n : Nat)
  | img (s : String)
deriving DecidableEq

/-- The destructuring swap
`[array[currentIndex], array[randomIndex]] = [array[randomIndex], array[currentIndex]]`
read functionally; out-of-range indices leave the list unchanged. -/
def listSwap {α : Type} (l : List α) (i j : Nat) : List α :=
  match l.get? i, l.get? j with
  | some a, some b => (l.set i b).set j a
  | _, _ => l

/-- The while-loop of `shuffle`: with `currentIndex = k+1` the source draws
`randomIndex = Math.floor(Math.random() * currentIndex)` — a uniform value
below `currentIndex`, here `r k % (k+1)` — decrements `currentIndex` to `k`,
and swaps positions `k` and `randomIndex`. -/
def shuffleAux {α : Type} (r : Nat → Nat) : Nat → List α → List α
  | 0, l => l
  | k+1, l => shuffleAux r k (listSwap l k (r k % (k+1)))

/-- `shuffle(array)` from src/server.js: in-place Fisher–Yates, run from
`currentIndex = array.length` down to `0`. -/
def shuffle {α : Type} (r : Nat → Nat) (l : List α) : List α :=
  shuffleAux r l.length l

/-- The shuffle loop instrumented with the trace of positions it writes as
first swap argument: the value of `currentIndex` after each decrement. -/
def shuffleAuxVisits {α : Type} (r : Nat → Nat) : Nat → List α → List α × List Nat
  | 0, l => (l, [])
  | k+1, l =>
    let p := shuffleAuxVisits r k (listSwap l k (r k % (k+1)))
    (p.1, k :: p.2)

/-! ### Game-mode payload sets and scrambled-order selection
(startGame / restartGame handlers, src/server.js) -/

/-- The image-scramble payload `[1,2,3,4,5,6,7,8,9]`. -/
def imageScramblePayload : List Token :=
  [Token.num 1, Token.num 2, Token.num 3, Token.num 4, Token.num 5,
   Token.num 6, Token.num 7, Token.num 8, Token.num 9]

/-- The matching-pairs payload: three card images, each twice. -/
def matchingPairsPayload : List Token :=
  [Token.img "/images/card1.jpg", Token.img "/images/card1.jpg",
   Token.img "/images/card2.jpg", Token.img "/images/card2.jpg",
   Token.img "/images/card3.jpg", Token.img "/images/card3.jpg"]

/-- The mode's fixed payload set: `[1..9]` for image-scramble, the six card
tokens for matching-pairs, and the empty sequence for any other mode. -/
def modePayload (gameMode : String) : List Token :=
  if gameMode = "image-scramble" then imageScramblePayload
  else if gameMode = "matching-pairs" then matchingPairsPayload
  else []

/-- `scrambledOrder` as computed by startGame / restartGame: shuffle the
mode's payload, or `[]` for a mode with no payload set. -/
def modeScrambledOrder (gameMode : String) (r : Nat → Nat) : List Token :=
  if gameMode = "image-scramble" then shuffle r imageScramblePayload
  else if gameMode = "matching-pairs" then shuffle r matchingPairsPayload
  else []

/-! ### Data model of the newest Firestore revision (src/server.js) -/

/-- An `events` collection document, as written by the createEvent handler. -/
structure EventDoc where
  hostFirebaseId : String
  hostSocketId : String
  state : String
  foundDifferences : List Nat
  currentGameMode : String
  scrambledOrder : List Token
  createdAt : Nat
deriving DecidableEq

/-- A document of an event's `leaderboard` sub-collection (shape of the
`scoreData` written by the submitTime handler); `sectionLabel` embeds the
source field `section`. -/
structure FSEntry where
  name : String
  sectionLabel : String
  time : ℚ
  timestamp : Nat
deriving DecidableEq

/-- An `eventTimers[code]` handle: `setInterval` yields a running handle,
`clearInterval` leaves a stopped one in place until it is deleted. -/
inductive TimerState : Type
  | running
  | stopped
deriving DecidableEq

/-- The server's mutable state: the Firestore `events` collection with its
per-event `leaderboard` sub-collections (keyed by teamId), and the two
global maps `eventTimers` and `hostSocketToEventCode`. -/
structure ServerState where
  events : String → Option EventDoc
  leaderboards : String → List (String × FSEntry)
  eventTimers : String → Option TimerState
  hostSocketToEventCode : String → Option String

/-- One outbound transport action of a handler, in emission order.
Constructors without an explicit target socket are emissions to the
requesting socket (`socket.emit` / `socket.join`). -/
inductive Effect : Type
  | timerUpdate (room : String) (elapsed : Nat)
  | eventEnded (room : String)
  | gameStateUpdate (room : String) (state : String) (gameMode : String)
      (scrambledOrder : List Token)
  | leaderboardUpdateRoom (room : String) (entries : List FSEntry)
  | joinResponseOk (eventCode : String) (gameState : String)
      (currentGameMode : String)
  | joinResponseErr (message : String)
  | playerJoined (hostSocket : String) (teamName : String) (sectionLabel : String)
  | leaderboardUpdateSock (entries : List FSEntry)
  | socketJoin (room : String)
deriving DecidableEq

/-- Ascending insertion by `time` (used to model the Firestore
`orderBy('time')` read of a leaderboard sub-collection). -/
def insertFSByTime (e : FSEntry) : List FSEntry → List FSEntry
  | [] => [e]
  | f :: rest => if f.time < e.time then f :: insertFSByTime e rest
                 else e :: f :: rest

/-- Sort leaderboard entries ascending by `time`. -/
def sortFSByTime : List FSEntry → List FSEntry
  | [] => []
  | e :: rest => insertFSByTime e (sortFSByTime rest)

/-- `if (eventTimers[eventCode]) clearInterval(eventTimers[eventCode])` —
stops a present handle without deleting the map entry (startGame and
restartGame both do exactly this). -/
def stopTimerIfPresent (st : ServerState) (code : String) : ServerState :=
  match st.eventTimers code with
  | some _ => { st with eventTimers := fupdate st.eventTimers code (some TimerState.stopped) }
  | none => st

/-! ### Handlers of the newest Firestore revision (src/server.js) -/

/-- `endEvent(eventCode)` from src/server.js: an early return on a falsy
code; clearInterval plus delete of the timer entry when present; the
`timerUpdate(0)` and `eventEnded` room broadcasts (emitted unconditionally,
before the store is consulted); then, only if the event document exists,
removal of the host index entry, deletion of the leaderboard sub-collection
and of the event document.  Store errors are caught and swallowed. -/
def endEvent (st : ServerState) (eventCode : String) : ServerState × List Effect :=
  if eventCode = "" then (st, [])
  else
    let st1 := match st.eventTimers eventCode with
      | some _ => { st with eventTimers := fupdate st.eventTimers eventCode none }
      | none => st
    let effs := [Effect.timerUpdate eventCode 0, Effect.eventEnded eventCode]
    match st1.events eventCode with
    | none => (st1, effs)
    | some doc =>
      let st2 := if doc.hostSocketId = "" then st1
                 else { st1 with hostSocketToEventCode :=
                          fupdate st1.hostSocketToEventCode doc.hostSocketId none }
      let st3 := { st2 with leaderboards := fupdate st2.leaderboards eventCode [] }
      let st4 := { st3 with events := fupdate st3.events eventCode none }
      (st4, effs)

/-- The joinEvent handler of src/server.js: 'Invalid event code.' when the
document does not exist, 'Game in progress.' when `state == 'playing'`,
otherwise join the room, answer with the current state and game mode
(JS `||` defaulting of falsy fields included), notify a present host, and
send the joiner the time-ordered leaderboard snapshot.  The event document
is never written. -/
def joinEventFS (st : ServerState) (eventCode teamName sectionLabel : String) :
    ServerState × List Effect :=
  match st.events eventCode with
  | none => (st, [Effect.joinResponseErr "Invalid event code."])
  | some data =>
    if data.state = "playing" then
      (st, [Effect.joinResponseErr "Game in progress."])
    else
      (st, [Effect.socketJoin eventCode,
            Effect.joinResponseOk eventCode
              (if data.state = "" then "waiting" else data.state)
              (if data.currentGameMode = "" then "spot-the-difference"
               else data.currentGameMode)]
           ++ (if data.hostSocketId = "" then []
               else [Effect.playerJoined data.hostSocketId teamName sectionLabel])
           ++ [Effect.leaderboardUpdateSock
                 (sortFSByTime ((st.leaderboards eventCode).map Prod.snd))])

/-- The startGame handler of src/server.js: nothing happens unless the event
exists and `hostSocketId === socket.id`.  On success: compute
`scrambledOrder` for the mode, stop any existing timer handle, emit
`timerUpdate(0)` then `gameStateUpdate({playing, gameMode, scrambledOrder})`,
then `await` the document update, then install the periodic timer.
`persistOk = false` models the update call throwing: the catch block only
logs, so the broadcasts stand but the document stays unchanged and the
interval is never installed. -/
def startGame (st : ServerState) (sock eventCode gameMode : String)
    (r : Nat → Nat) (persistOk : Bool) : ServerState × List Effect :=
  match st.events eventCode with
  | none => (st, [])
  | some doc =>
    if doc.hostSocketId = sock then
      let scrambledOrder := modeScrambledOrder gameMode r
      let st1 := stopTimerIfPresent st eventCode
      let effs := [Effect.timerUpdate eventCode 0,
                   Effect.gameStateUpdate eventCode "playing" gameMode scrambledOrder]
      if persistOk then
        let st2 := { st1 with events := fupdate st1.events eventCode (some { doc with
                        state := "playing", currentGameMode := gameMode,
                        scrambledOrder := scrambledOrder, foundDifferences := [] }) }
        let st3 := { st2 with eventTimers :=
                        fupdate st2.eventTimers eventCode (some TimerState.running) }
        (st3, effs)
      else (st1, effs)
    else (st, [])

/-- The restartGame handler of src/server.js: same authority check as
startGame.  On success: compute `scrambledOrder` for the (possibly new)
mode, stop any existing timer handle, emit `timerUpdate(0)`, delete every
leaderboard entry, update the document to
`{waiting, foundDifferences: [], currentGameMode, scrambledOrder}`, then
emit `leaderboardUpdate([])` and
`gameStateUpdate({waiting, gameMode, scrambledOrder})`. -/
def restartGame (st : ServerState) (sock eventCode gameMode : String)
    (r : Nat → Nat) : ServerState × List Effect :=
  match st.events eventCode with
  | none => (st, [])
  | some doc =>
    if doc.hostSocketId = sock then
      let scrambledOrder := modeScrambledOrder gameMode r
      let st1 := stopTimerIfPresent st eventCode
      let st2 := { st1 with leaderboards := fupdate st1.leaderboards eventCode [] }
      let st3 := { st2 with events := fupdate st2.events eventCode (some { doc with
                      state := "waiting", foundDifferences := [],
                      currentGameMode := gameMode, scrambledOrder := scrambledOrder }) }
      (st3, [Effect.timerUpdate eventCode 0,
             Effect.leaderboardUpdateRoom eventCode [],
             Effect.gameStateUpdate eventCode "waiting" gameMode scrambledOrder])
    else (st, [])

/-! ### The code-generation loop
(`generateCode` in src/index.js, inlined in the createEvent handler of
src/server.js) -/

/-- `Math.floor(1000 + Math.random() * 9000)`: the draw `d` stands for a
uniform sample, taken modulo 9000, giving a code in 1000–9999. -/
def codeOfDraw (d : Nat) : Nat := 1000 + d % 9000

/-- The do-while probe loop: draw a code, probe the store (`store c = true`
means a document with that code exists), and repeat until a free code is
found.  The supplied list is the stream of random draws; an exhausted
stream (`none`) means the loop is still spinning after that many probes.
The second component counts the store probes performed. -/
def generateCode (store : Nat → Bool) : List Nat → Option Nat × Nat
  | [] => (none, 0)
  | d :: rest =>
    let c := codeOfDraw d
    if store c then
      let p := generateCode store rest
      (p.1, p.2 + 1)
    else (some c, 1)

/-! ### The timer scheduler (startGame's setInterval closure) -/

/-- One tick of the interval closure: `currentTime += 100` then emit the new
`currentTime`. -/
def tickStep (currentTime : Nat) : Nat × Nat :=
  (currentTime + 100, currentTime + 100)

/-- The closure variable `currentTime` after `n` ticks (it starts at 0). -/
def timerCounter : Nat → Nat
  | 0 => 0
  | n+1 => (tickStep (timerCounter n)).1

/-- The value broadcast by tick number `n+1` (ticks are counted from 1). -/
def tickEmit (n : Nat) : Nat := (tickStep (timerCounter n)).2

/-! ### The in-memory revision (src/index.js, first document) -/

/-- A leaderboard row of the in-memory revision, `{ name, time }` with
`time` the `parseFloat` of the submitted value. -/
structure MemEntry where
  name : String
  time : ℚ
deriving DecidableEq

/-- A submitTime payload after the `parseFloat`. -/
structure MemSubmission where
  name : String
  time : ℚ
deriving DecidableEq

/-- The in-memory `events` object: `events[code] = { leaderboard: [...] }`. -/
def MemStore : Type := String → Option (List MemEntry)

/-- Outbound actions of the in-memory revision's handlers. -/
inductive MemEffect : Type
  | socketJoin (room : String)
  | joinedEvent (eventCode : String) (leaderboard : List MemEntry)
  | leaderboardUpdate (room : String) (leaderboard : List MemEntry)
deriving DecidableEq

/-- The predicate of `leaderboard.find(p => p.name === submission.name)`. -/
def byName (n : String) (e : MemEntry) : Bool := e.name == n

/-- Ascending stable insertion by `time`
(`leaderboard.sort((a, b) => a.time - b.time)`). -/
def insertByTime (e : MemEntry) : List MemEntry → List MemEntry
  | [] => [e]
  | f :: rest => if f.time < e.time then f :: insertByTime e rest
                 else e :: f :: rest

/-- Ascending stable sort by `time`. -/
def sortByTime : List MemEntry → List MemEntry
  | [] => []
  | e :: rest => insertByTime e (sortByTime rest)

/-- `existing.time = time` applied to the first entry matching the name,
and only when the new time is strictly lower. -/
def replaceIfBetter (n : String) (t : ℚ) : List MemEntry → List MemEntry
  | [] => []
  | e :: rest =>
    if e.name == n then
      (if t < e.time then { e with time := t } :: rest else e :: rest)
    else
      e :: replaceIfBetter n t rest

/-- The joinEvent handler of the in-memory revision: after the
`userData.playerName` guard it CREATES `events[eventCode]` with an empty
leaderboard when no such event exists, joins the room, and answers
`joinedEvent` with the current leaderboard. -/
def joinEventIM (st : MemStore) (eventCode playerName : String) :
    MemStore × List MemEffect :=
  if playerName = "" then (st, [])
  else
    let st1 : MemStore := match st eventCode with
               | none => fupdate st eventCode (some [])
               | some _ => st
    (st1, [MemEffect.socketJoin eventCode,
           MemEffect.joinedEvent eventCode ((st1 eventCode).getD [])])

/-- The submitTime handler of the in-memory revision: guards on a truthy
`submission.name` and an existing event (silently returning otherwise);
inserts a fresh `{ name, time }` when no entry carries the name, otherwise
overwrites the stored time only when the new time is strictly lower; sorts
the leaderboard ascending by time and broadcasts it to the room.  No
requester identity is consulted anywhere. -/
def submitTimeIM (st : MemStore) (eventCode : String) (sub : MemSubmission) :
    MemStore × List MemEffect :=
  if sub.name = "" then (st, [])
  else
    match st eventCode with
    | none => (st, [])
    | some lb =>
      let lb1 := match lb.find? (byName sub.name) with
                 | none => lb ++ [{ name := sub.name, time := sub.time }]
                 | some _ => replaceIfBetter sub.name sub.time lb
      let lb2 := sortByTime lb1
      (fupdate st eventCode (some lb2),
       [MemEffect.leaderboardUpdate eventCode lb2])

/-- The time currently stored for participant `pname` in session
`eventCode` (through the same first-match lookup the handler uses). -/
def storedTime (st : MemStore) (eventCode pname : String) : Option ℚ :=
  (st eventCode).bind fun lb => (lb.find? (byName pname)).map MemEntry.time

/-- Per-leaderboard well-formedness: participant names are pairwise
distinct (the handler only ever appends a name that is absent). -/
def namesNodup (lb : List MemEntry) : Prop := (lb.map MemEntry.name).Nodup

instance (lb : List MemEntry) : Decidable (namesNodup lb) :=
  inferInstanceAs (Decidable (lb.map MemEntry.name).Nodup)

/-- `namesNodup` for the board stored at `eventCode` (trivially true when
the event does not exist). -/
def boardNodupAt (st : MemStore) (eventCode : String) : Prop :=
  namesNodup ((st eventCode).getD [])

instance (st : MemStore) (eventCode : String) : Decidable (boardNodupAt st eventCode) :=
  inferInstanceAs (Decidable (namesNodup ((st eventCode).getD [])))

/-- A sequence of submitTime calls for one fixed participant. -/
def runSubmits (st : MemStore) (eventCode pname : String) : List ℚ → MemStore
  | [] => st
  | t :: rest =>
    runSubmits (submitTimeIM st eventCode { name := pname, time := t }).1 eventCode pname rest

/-! ### Concrete states used to evaluate the theorems -/

/-- A waiting event document hosted by socket "hostA". -/
def docHostA : EventDoc :=
  { hostFirebaseId := "fb1", hostSocketId := "hostA", state := "waiting",
    foundDifferences := [], currentGameMode := "spot-the-difference",
    scrambledOrder := [], createdAt := 0 }

/-- The same document mid-game. -/
def docHostAPlaying : EventDoc := { docHostA with state := "playing" }

/-- A sample leaderboard sub-collection row. -/
def entryFoo : FSEntry :=
  { name := "Foo", sectionLabel := "A", time := 12, timestamp := 0 }

/-- A server hosting the single waiting event "1234". -/
def stWaiting : ServerState :=
  { events := fun c => if c = "1234" then some docHostA else none,
    leaderboards := fun _ => [],
    eventTimers := fun _ => none,
    hostSocketToEventCode := fun s => if s = "hostA" then some "1234" else none }

/-- A server whose event "1234" is playing, with a running timer and one
leaderboard row. -/
def stPlaying : ServerState :=
  { events := fun c => if c = "1234" then some docHostAPlaying else none,
    leaderboards := fun c => if c = "1234" then [("team1", entryFoo)] else [],
    eventTimers := fun c => if c = "1234" then some TimerState.running else none,
    hostSocketToEventCode := fun s => if s = "hostA" then some "1234" else none }

/-- A server with no events at all. -/
def stNoEvents : ServerState :=
  { events := fun _ => none, leaderboards := fun _ => [],
    eventTimers := fun _ => none, hostSocketToEventCode := fun _ => none }

/-- An in-memory store holding one event with one entry. -/
def memStoreBob : MemStore :=
  fun c => if c = "7777" then some [{ name := "bob", time := (10 : ℚ) }] else none

/-- The empty in-memory store. -/
def memStoreEmpty : MemStore := fun _ => none

/-! ### Permutation and shuffle lemmas -/

theorem cons_set_perm {α : Type} (x b : α) :
    ∀ (j : Nat) (xs : List α), xs.get? j = some b →
      (b :: xs.set j x).Perm (x :: xs) := by
  intro j
  induction j with
  | zero =>
    intro xs h
    cases xs with
    | nil => cases h
    | cons y t =>
      simp only [List.get?] at h
      obtain rfl : y = b := by simpa using h
      simpa [List.set] using List.Perm.swap x y t
  | succ j ih =>
    intro xs h
    cases xs with
    | nil => cases h
    | cons y t =>
      simp only [List.get?] at h
      have h1 : (b :: y :: t.set j x).Perm (y :: b :: t.set j x) :=
        List.Perm.swap y b (t.set j x)
      have h2 : (y :: b :: t.set j x).Perm (y :: x :: t) :=
        List.Perm.cons y (ih t h)
      have h3 : (y :: x :: t).Perm (x :: y :: t) := List.Perm.swap x y t
      simpa [List.set] using (h1.trans h2).trans h3

theorem set_set_swap_perm {α : Type} :
    ∀ (l : List α) (i j : Nat) (a b : α),
      l.get? i = some a → l.get? j = some b →
      ((l.set i b).set j a).Perm l := by
  intro l
  induction l with
  | nil => intro i j a b h1 _; cases h1
  | cons x xs ih =>
    intro i j a b h1 h2
    cases i with
    | zero =>
      cases j with
      | zero =>
        simp only [List.get?] at h1 h2
        cases h1; cases h2
        simp [List.set]
      | succ m =>
        simp only [List.get?] at h1 h2
        cases h1
        simpa [List.set] using cons_set_perm x b m xs h2
    | succ k =>
      cases j with
      | zero =>
        simp only [List.get?] at h1 h2
        cases h2
        simpa [List.set] using cons_set_perm x a k xs h1
      | succ m =>
        simp only [List.get?] at h1 h2
        simpa [List.set] using List.Perm.cons x (ih k m a b h1 h2)

theorem listSwap_perm {α : Type} (l : List α) (i j : Nat) :
    (listSwap l i j).Perm l := by
  unfold listSwap
  cases h1 : l.get? i with
  | none => exact List.Perm.refl l
  | some a =>
    cases h2 : l.get? j with
    | none => exact List.Perm.refl l
    | some b => exact set_set_swap_perm l i j a b h1 h2

theorem shuffleAux_perm {α : Type} (r : Nat → Nat) :
    ∀ (n : Nat) (l : List α), (shuffleAux r n l).Perm l := by
  intro n
  induction n with
  | zero => intro l; exact List.Perm.refl l
  | succ k ih =>
    intro l
    exact (ih _).trans (listSwap_perm l k (r k % (k+1)))

theorem shuffle_perm {α : Type} (r : Nat → Nat) (l : List α) :
    (shuffle r l).Perm l :=
  shuffleAux_perm r l.length l

theorem shuffleAuxVisits_fst {α : Type} (r : Nat → Nat) :
    ∀ (n : Nat) (l : List α), (shuffleAuxVisits r n l).1 = shuffleAux r n l := by
  intro n
  induction n with
  | zero => intro l; rfl
  | succ k ih => intro l; simp [shuffleAuxVisits, shuffleAux, ih]

theorem shuffleAuxVisits_snd {α : Type} (r : Nat → Nat) :
    ∀ (n : Nat) (l : List α), (shuffleAuxVisits r n l).2 = (List.range n).reverse := by
  intro n
  induction n with
  | zero => intro l; rfl
  | succ k ih =>
    intro l
    simp [shuffleAuxVisits, ih, List.range_succ]


theorem modeScrambledOrder_eq_shuffle (gameMode : String) (r : Nat → Nat) :
    modeScrambledOrder gameMode r = shuffle r (modePayload gameMode) := by
  unfold modeScrambledOrder modePayload
  by_cases h1 : gameMode = "image-scramble"
  · simp [h1]
  · by_cases h2 : gameMode = "matching-pairs"
    · simp [h1, h2]
    · simp [h1, h2, shuffle, shuffleAux]

theorem timerCounter_eq (n : Nat) : timerCounter n = n * 100 := by
  induction n with
  | zero => rfl
  | succ k ih => simp [timerCounter, tickStep, ih, Nat.succ_mul]

theorem insertByTime_perm (e : MemEntry) :
    ∀ l, (insertByTime e l).Perm (e :: l) := by
  intro l
  induction l with
  | nil => simp [insertByTime]
  | cons f rest ih =>
    unfold insertByTime
    by_cases h : f.time < e.time
    · simp only [if_pos h]
      exact (ih.cons f).trans (List.Perm.swap e f rest)
    · simp only [if_neg h]
      exact List.Perm.refl _

theorem sortByTime_perm : ∀ l, (sortByTime l).Perm l := by
  intro l
  induction l with
  | nil => exact List.Perm.refl []
  | cons e rest ih =>
    exact (insertByTime_perm e (sortByTime rest)).trans (ih.cons e)

theorem find?_some_of_mem {α : Type} (p : α → Bool) :
    ∀ (l : List α) (x : α), x ∈ l → p x = true →
      ∃ y, l.find? p = some y ∧ p y = true := by
  intro l
  induction l with
  | nil => intro x hx; cases hx
  | cons a t ih =>
    intro x hx hp
    by_cases ha : p a = true
    · exact ⟨a, List.find?_cons_of_pos t ha, ha⟩
    · rcases List.mem_cons.mp hx with rfl | hx
      · exact absurd hp ha
      · rcases ih x hx hp with ⟨y, hy, hpy⟩
        exact ⟨y, by simp [List.find?_cons_of_neg, ha, hy], hpy⟩

theorem entry_unique_by_name :
    ∀ (l : List MemEntry), namesNodup l →
      ∀ e f, e ∈ l → f ∈ l → e.name = f.name → e = f := by
  intro l
  induction l with
  | nil => intro _ e f he; cases he
  | cons a t ih =>
    intro hnd e f he hf hn
    have hnd2 : namesNodup t := by
      simpa [namesNodup] using (List.nodup_cons.mp hnd).2
    have hna : a.name ∉ t.map MemEntry.name := by
      simpa [namesNodup] using (List.nodup_cons.mp hnd).1
    cases List.mem_cons.mp he with
    | inl h1 =>
      cases List.mem_cons.mp hf with
      | inl h2 => rw [h1, h2]
      | inr h2 =>
        exfalso
        apply hna
        have h3 : f.name ∈ t.map MemEntry.name := List.mem_map_of_mem MemEntry.name h2
        rw [h1] at hn
        rwa [hn]
    | inr h1 =>
      cases List.mem_cons.mp hf with
      | inl h2 =>
        exfalso
        apply hna
        have h3 : e.name ∈ t.map MemEntry.name := List.mem_map_of_mem MemEntry.name h1
        rw [h2] at hn
        rwa [← hn]
      | inr h2 => exact ih hnd2 e f h1 h2 hn


theorem find?_byName_perm (n : String) (l1 l2 : List MemEntry)
    (hp : l1.Perm l2) (hnd : namesNodup l1) :
    l1.find? (byName n) = l2.find? (byName n) := by
  have hnd2 : namesNodup l2 := by
    have h0 := (hp.map MemEntry.name).nodup_iff
    exact h0.mp hnd
  cases h : l1.find? (byName n) with
  | none =>
    have hall := List.find?_eq_none.mp h
    symm
    apply List.find?_eq_none.mpr
    intro x hx
    exact hall x (hp.mem_iff.mpr hx)
  | some e =>
    have he : e ∈ l1 := List.mem_of_find?_eq_some h
    have hpe : byName n e = true := List.find?_some h
    rcases find?_some_of_mem (byName n) l2 e (hp.mem_iff.mp he) hpe with ⟨y, hy, hpy⟩
    have hyy : y ∈ l2 := List.mem_of_find?_eq_some hy
    have hname : e.name = y.name := by
      have h1 : e.name = n := by simpa [byName] using hpe
      have h2 : y.name = n := by simpa [byName] using hpy
      rw [h1, h2]
    have hey : e = y := entry_unique_by_name l2 hnd2 e y (hp.mem_iff.mp he) hyy hname
    rw [hy, hey]

theorem replaceIfBetter_names (n : String) (t : ℚ) :
    ∀ l, (replaceIfBetter n t l).map MemEntry.name = l.map MemEntry.name := by
  intro l
  induction l with
  | nil => rfl
  | cons e rest ih =>
    unfold replaceIfBetter
    by_cases h : (e.name == n) = true
    · by_cases h2 : t < e.time <;> simp [h, h2]
    · simp [h, ih]

theorem find?_replaceIfBetter_self (n : String) (t : ℚ) :
    ∀ l, (replaceIfBetter n t l).find? (byName n) =
      (l.find? (byName n)).map
        (fun e => if t < e.time then { e with time := t } else e) := by
  intro l
  induction l with
  | nil => rfl
  | cons e rest ih =>
    unfold replaceIfBetter
    by_cases h : (e.name == n) = true
    · by_cases h2 : t < e.time
      · have hb : byName n { e with time := t } = true := by simpa [byName] using h
        simp [h, h2, List.find?_cons_of_pos _ hb,
              List.find?_cons_of_pos _ (show byName n e = true from h)]
      · simp [h, h2, List.find?_cons_of_pos _ (show byName n e = true from h)]
    · have hb : ¬ byName n e = true := h
      simp [h, List.find?_cons_of_neg _ hb, ih]

theorem find?_append_of_none {α : Type} (p : α → Bool) :
    ∀ (l1 l2 : List α), l1.find? p = none → (l1 ++ l2).find? p = l2.find? p := by
  intro l1
  induction l1 with
  | nil => intro l2 _; rfl
  | cons a t ih =>
    intro l2 h
    have ha : ¬ p a = true := by
      intro hpa
      exact List.find?_eq_none.mp h a (List.mem_cons_self a t) hpa
    have ht : t.find? p = none := by
      apply List.find?_eq_none.mpr
      intro x hx
      exact List.find?_eq_none.mp h x (List.mem_cons_of_mem a hx)
    simp [List.find?_cons_of_neg _ ha, ih l2 ht]

theorem namesNodup_append_new (lb : List MemEntry) (n : String) (t : ℚ)
    (hnd : namesNodup lb) (habs : lb.find? (byName n) = none) :
    namesNodup (lb ++ [{ name := n, time := t }]) := by
  have hnot : n ∉ lb.map MemEntry.name := by
    intro hmem
    rcases List.mem_map.mp hmem with ⟨e, he, hen⟩
    apply List.find?_eq_none.mp habs e he
    simp [byName, hen]
  unfold namesNodup
  rw [List.map_append]
  apply List.Nodup.append hnd (by simp)
  intro x hx hy
  simp at hy
  rw [hy] at hx
  exact hnot hx

theorem namesNodup_replaceIfBetter (lb : List MemEntry) (n : String) (t : ℚ)
    (hnd : namesNodup lb) : namesNodup (replaceIfBetter n t lb) := by
  unfold namesNodup
  rw [replaceIfBetter_names]
  exact hnd

theorem namesNodup_sortByTime (lb : List MemEntry) (hnd : namesNodup lb) :
    namesNodup (sortByTime lb) :=
  (((sortByTime_perm lb).map MemEntry.name).nodup_iff).mpr hnd

theorem submitTime_step_present (st : MemStore) (eventCode n : String) (t u : ℚ)
    (hn : n ≠ "") (hinv : boardNodupAt st eventCode)
    (h : storedTime st eventCode n = some u) :
    storedTime (submitTimeIM st eventCode { name := n, time := t }).1 eventCode n
      = some (if t < u then t else u) ∧
    boardNodupAt (submitTimeIM st eventCode { name := n, time := t }).1 eventCode := by
  cases hlb : st eventCode with
  | none => rw [storedTime, hlb] at h; cases h
  | some lb =>
    rw [storedTime, hlb] at h
    simp only [Option.some_bind] at h
    cases hfind : lb.find? (byName n) with
    | none => rw [hfind] at h; cases h
    | some e =>
      rw [hfind] at h
      have het : e.time = u := by simpa using h
      have hnd : namesNodup lb := by
        unfold boardNodupAt at hinv
        rwa [hlb, Option.getD_some] at hinv
      have hnd1 : namesNodup (replaceIfBetter n t lb) :=
        namesNodup_replaceIfBetter lb n t hnd
      have hnd2 : namesNodup (sortByTime (replaceIfBetter n t lb)) :=
        namesNodup_sortByTime _ hnd1
      have hres : (submitTimeIM st eventCode { name := n, time := t }).1
          = fupdate st eventCode (some (sortByTime (replaceIfBetter n t lb))) := by
        unfold submitTimeIM
        simp only [if_neg hn]
        rw [hlb]
        simp only [hfind]
      constructor
      · rw [hres, storedTime]
        have hup : fupdate st eventCode (some (sortByTime (replaceIfBetter n t lb))) eventCode
            = some (sortByTime (replaceIfBetter n t lb)) := by simp [fupdate]
        rw [hup]
        simp only [Option.some_bind]
        have hperm : (sortByTime (replaceIfBetter n t lb)).find? (byName n)
            = (replaceIfBetter n t lb).find? (byName n) :=
          find?_byName_perm n _ _ (sortByTime_perm _) hnd2
        rw [hperm, find?_replaceIfBetter_self, hfind]
        by_cases hc : t < e.time
        · rw [het] at hc
          simp [hc, het]
        · rw [het] at hc
          simp [hc, het]
      · rw [hres]
        unfold boardNodupAt
        simp [fupdate, hnd2]

theorem submitTime_step_absent (st : MemStore) (eventCode n : String) (t : ℚ)
    (hn : n ≠ "") (hinv : boardNodupAt st eventCode) (lb : List MemEntry)
    (hlb : st eventCode = some lb) (habs : lb.find? (byName n) = none) :
    storedTime (submitTimeIM st eventCode { name := n, time := t }).1 eventCode n
      = some t ∧
    boardNodupAt (submitTimeIM st eventCode { name := n, time := t }).1 eventCode := by
  have hnd : namesNodup lb := by
    unfold boardNodupAt at hinv
    rwa [hlb, Option.getD_some] at hinv
  have hnd1 : namesNodup (lb ++ [{ name := n, time := t }]) :=
    namesNodup_append_new lb n t hnd habs
  have hnd2 : namesNodup (sortByTime (lb ++ [{ name := n, time := t }])) :=
    namesNodup_sortByTime _ hnd1
  have hres : (submitTimeIM st eventCode { name := n, time := t }).1
      = fupdate st eventCode (some (sortByTime (lb ++ [{ name := n, time := t }]))) := by
    unfold submitTimeIM
    simp only [if_neg hn]
    rw [hlb]
    simp only [habs]
  constructor
  · rw [hres, storedTime]
    have hup : fupdate st eventCode (some (sortByTime (lb ++ [{ name := n, time := t }]))) eventCode
        = some (sortByTime (lb ++ [{ name := n, time := t }])) := by simp [fupdate]
    rw [hup]
    simp only [Option.some_bind]
    have hperm : (sortByTime (lb ++ [({ name := n, time := t } : MemEntry)])).find? (byName n)
        = (lb ++ [({ name := n, time := t } : MemEntry)]).find? (byName n) :=
      find?_byName_perm n _ _ (sortByTime_perm _) hnd2
    rw [hperm, find?_append_of_none (byName n) lb [({ name := n, time := t } : MemEntry)] habs]
    simp [byName, List.find?]
  · rw [hres]
    unfold boardNodupAt
    simp [fupdate, hnd2]

theorem runSubmits_monotone (eventCode n : String) (hn : n ≠ "") :
    ∀ (ts : List ℚ) (st : MemStore), boardNodupAt st eventCode →
      ∀ u, storedTime st eventCode n = some u →
        ∃ w, storedTime (runSubmits st eventCode n ts) eventCode n = some w ∧ w ≤ u := by
  intro ts
  induction ts with
  | nil =>
    intro st _ u h
    exact ⟨u, h, le_refl u⟩
  | cons t rest ih =>
    intro st hinv u h
    obtain ⟨h1, h2⟩ := submitTime_step_present st eventCode n t u hn hinv h
    obtain ⟨w, hw1, hw2⟩ := ih _ h2 (if t < u then t else u) h1
    refine ⟨w, hw1, le_trans hw2 ?_⟩
    by_cases hc : t < u
    · rw [if_pos hc]
      exact le_of_lt hc
    · rw [if_neg hc]


/-! ### Claim theorems -/

/-- Claim C4: for every game mode the generated `scrambledOrder` is a
permutation of that mode's fixed payload set — `[1..9]` for image-scramble,
the six paired card tokens for matching-pairs, and the empty sequence for a
mode with no defined payload set — with the length preserved; moreover the
in-place Fisher–Yates loop visits every position exactly once: its trace of
written positions is duplicate-free and covers exactly the indices below
the payload length. -/
theorem shuffle_validity (gameMode : String) (r : Nat → Nat) :
    (modeScrambledOrder gameMode r).Perm (modePayload gameMode) ∧
    (modeScrambledOrder gameMode r).length = (modePayload gameMode).length ∧
    (shuffleAuxVisits r (modePayload gameMode).length (modePayload gameMode)).1
      = modeScrambledOrder gameMode r ∧
    (shuffleAuxVisits r (modePayload gameMode).length (modePayload gameMode)).2.Nodup ∧
    ∀ i, i ∈ (shuffleAuxVisits r (modePayload gameMode).length (modePayload gameMode)).2
        ↔ i < (modePayload gameMode).length := by
  have hm := modeScrambledOrder_eq_shuffle gameMode r
  have hp : (modeScrambledOrder gameMode r).Perm (modePayload gameMode) := by
    rw [hm]
    exact shuffle_perm r _
  refine ⟨hp, hp.length_eq, ?_, ?_, ?_⟩
  · rw [shuffleAuxVisits_fst, hm]
    rfl
  · rw [shuffleAuxVisits_snd]
    simp [List.nodup_reverse, List.nodup_range]
  · intro i
    rw [shuffleAuxVisits_snd]
    simp [List.mem_reverse, List.mem_range]

/-- Claim C6 (amended): the code generator repeatedly draws a uniformly
random 4-digit code in 1000–9999 and probes the store, looping until it
finds a code with no existing session; the loop has NO retry cap and no
CodeSpaceExhausted failure (see the counterexample), and every code it
returns is in range and absent from the store at assignment time. -/
theorem generateCode_sound (store : Nat → Bool) :
    ∀ (draws : List Nat) (c : Nat), (generateCode store draws).1 = some c →
      store c = false ∧ 1000 ≤ c ∧ c ≤ 9999 := by
  intro draws
  induction draws with
  | nil => intro c h; cases h
  | cons d rest ih =>
    intro c h
    unfold generateCode at h
    by_cases hs : store (codeOfDraw d) = true
    · simp only [hs, if_true] at h
      exact ih c h
    · simp only [Bool.not_eq_true] at hs
      simp only [hs, Bool.false_eq_true, if_false] at h
      have hc : c = codeOfDraw d := by
        have h1 := h
        simp at h1
        omega
      refine ⟨hc ▸ hs, ?_, ?_⟩ <;> rw [hc] <;> unfold codeOfDraw
      · omega
      · have hlt : d % 9000 < 9000 := Nat.mod_lt d (by omega)
        omega

/-- Witness for claim C6's theorem at a concrete store and draw stream. -/
theorem generateCode_sound_witness :
    (fun _ : Nat => false) 1000 = false ∧ 1000 ≤ 1000 ∧ 1000 ≤ 9999 :=
  generateCode_sound (fun _ => false) [0] 1000 (by decide)

/-- Claim C6 counterexample: with every code taken except 1005, the loop
performs 61 store probes — well past the claimed 50-retry cap — and then
returns the free code; it never fails with CodeSpaceExhausted (no failure
mode exists in the code at all). -/
theorem generateCode_unbounded_cex :
    generateCode (fun c => !(c == 1005)) (List.replicate 60 0 ++ [5])
      = (some 1005, 61) ∧
    50 < (generateCode (fun c => !(c == 1005)) (List.replicate 60 0 ++ [5])).2 := by
  constructor <;> decide

/-- Claim C2: for every session, startGame and restartGame invoked with a
requester connection id different from the session's recorded hostSocketId
perform no state mutation at all (no store write, no timer start or
cancellation — the returned state is the input state) and emit no broadcast
(the effect list is empty). -/
theorem host_authority (st : ServerState) (sock eventCode gameMode : String)
    (r : Nat → Nat) (persistOk : Bool) (doc : EventDoc)
    (hdoc : st.events eventCode = some doc) (hsock : doc.hostSocketId ≠ sock) :
    startGame st sock eventCode gameMode r persistOk = (st, []) ∧
    restartGame st sock eventCode gameMode r = (st, []) := by
  constructor
  · unfold startGame
    rw [hdoc]
    simp [hsock]
  · unfold restartGame
    rw [hdoc]
    simp [hsock]

/-- Witness for claim C2's theorem: a non-host socket calling startGame and
restartGame on the waiting event "1234". -/
theorem host_authority_witness :
    startGame stWaiting "intruder" "1234" "image-scramble" (fun _ => 0) true
      = (stWaiting, []) ∧
    restartGame stWaiting "intruder" "1234" "image-scramble" (fun _ => 0)
      = (stWaiting, []) :=
  host_authority stWaiting "intruder" "1234" "image-scramble" (fun _ => 0) true
    docHostA (by decide) (by decide)

/-- Claim C7: on a successful startGame by the host, the handler broadcasts
timerUpdate(0) first — before the periodic interval is even installed (the
handler's effect list opens with it, and the scheduler only starts running
in the post-state); thereafter the scheduler's tick number n (for every
n ≥ 1, here `tickEmit (n-1)`) broadcasts the cumulative value n × 100, and
the zero value is never emitted by the periodic scheduler itself (every
tick value is positive). -/
theorem timer_tick_sequence (st : ServerState) (sock eventCode gameMode : String)
    (r : Nat → Nat) (doc : EventDoc)
    (hdoc : st.events eventCode = some doc) (hsock : doc.hostSocketId = sock) :
    (startGame st sock eventCode gameMode r true).2.head?
      = some (Effect.timerUpdate eventCode 0) ∧
    (startGame st sock eventCode gameMode r true).1.eventTimers eventCode
      = some TimerState.running ∧
    (∀ n, tickEmit n = (n + 1) * 100) ∧
    (∀ n, 0 < tickEmit n) := by
  refine ⟨?_, ?_, ?_, ?_⟩
  · unfold startGame
    rw [hdoc]
    simp [hsock]
  · unfold startGame
    rw [hdoc]
    simp [hsock, fupdate]
  · intro n
    unfold tickEmit tickStep
    rw [timerCounter_eq]
    ring
  · intro n
    unfold tickEmit tickStep
    omega

/-- Witness for claim C7's theorem: the host starts event "1234", and the
third tick emits 300. -/
theorem timer_tick_sequence_witness :
    (startGame stWaiting "hostA" "1234" "image-scramble" (fun _ => 0) true).2.head?
      = some (Effect.timerUpdate "1234" 0) ∧
    (startGame stWaiting "hostA" "1234" "image-scramble" (fun _ => 0) true).1.eventTimers "1234"
      = some TimerState.running ∧
    tickEmit 2 = 300 ∧
    0 < tickEmit 2 :=
  have h := timer_tick_sequence stWaiting "hostA" "1234" "image-scramble" (fun _ => 0)
    docHostA (by decide) (by decide)
  ⟨h.1, h.2.1, h.2.2.1 2, h.2.2.2 2⟩

/-- Claim C8: a restartGame by the host cancels the active timer (the timer
entry is left non-running), clears every leaderboard entry of the session,
regenerates scrambledOrder for the (possibly new) gameMode, sets the state
to waiting and resets foundDifferences, and broadcasts exactly
timerUpdate(0), then leaderboardUpdate([]), then
gameStateUpdate({waiting, gameMode, scrambledOrder}), in this order. -/
theorem restart_semantics (st : ServerState) (sock eventCode gameMode : String)
    (r : Nat → Nat) (doc : EventDoc)
    (hdoc : st.events eventCode = some doc) (hsock : doc.hostSocketId = sock) :
    (restartGame st sock eventCode gameMode r).2 =
      [Effect.timerUpdate eventCode 0,
       Effect.leaderboardUpdateRoom eventCode [],
       Effect.gameStateUpdate eventCode "waiting" gameMode (modeScrambledOrder gameMode r)] ∧
    (restartGame st sock eventCode gameMode r).1.events eventCode =
      some { doc with
             state := "waiting"
             foundDifferences := []
             currentGameMode := gameMode
             scrambledOrder := modeScrambledOrder gameMode r } ∧
    (restartGame st sock eventCode gameMode r).1.leaderboards eventCode = [] ∧
    ((restartGame st sock eventCode gameMode r).1.eventTimers eventCode = none ∨
     (restartGame st sock eventCode gameMode r).1.eventTimers eventCode
       = some TimerState.stopped) := by
  refine ⟨?_, ?_, ?_, ?_⟩
  · unfold restartGame
    rw [hdoc]
    simp [hsock]
  · unfold restartGame
    rw [hdoc]
    simp [hsock, fupdate, stopTimerIfPresent]
  · unfold restartGame
    rw [hdoc]
    simp [hsock, fupdate, stopTimerIfPresent]
  · unfold restartGame
    rw [hdoc]
    cases h : st.eventTimers eventCode with
    | none => simp [hsock, fupdate, stopTimerIfPresent, h]
    | some t => simp [hsock, fupdate, stopTimerIfPresent, h]

/-- Witness for claim C8's theorem: the host restarts the playing event
"1234", switching it to image-scramble mode. -/
theorem restart_semantics_witness :
    (restartGame stPlaying "hostA" "1234" "image-scramble" (fun _ => 0)).2 =
      [Effect.timerUpdate "1234" 0,
       Effect.leaderboardUpdateRoom "1234" [],
       Effect.gameStateUpdate "1234" "waiting" "image-scramble"
         (modeScrambledOrder "image-scramble" (fun _ => 0))] ∧
    (restartGame stPlaying "hostA" "1234" "image-scramble" (fun _ => 0)).1.events "1234" =
      some { docHostAPlaying with
             state := "waiting"
             foundDifferences := []
             currentGameMode := "image-scramble"
             scrambledOrder := modeScrambledOrder "image-scramble" (fun _ => 0) } ∧
    (restartGame stPlaying "hostA" "1234" "image-scramble" (fun _ => 0)).1.leaderboards "1234"
      = [] ∧
    ((restartGame stPlaying "hostA" "1234" "image-scramble" (fun _ => 0)).1.eventTimers "1234"
       = none ∨
     (restartGame stPlaying "hostA" "1234" "image-scramble" (fun _ => 0)).1.eventTimers "1234"
       = some TimerState.stopped) :=
  restart_semantics stPlaying "hostA" "1234" "image-scramble" (fun _ => 0)
    docHostAPlaying (by decide) (by decide)

/-- Claim C10: in the startGame handler the timerUpdate(0) and
gameStateUpdate({playing, gameMode, scrambledOrder}) broadcasts are emitted
before the persistence update is attempted: when the store write fails
(persistOk = false) both broadcasts are still in the effect list, yet the
events collection is completely unchanged — the stored session still reads
waiting — and the periodic timer is never started (the timer entry for the
session is left non-running). -/
theorem startGame_broadcast_before_persist (st : ServerState)
    (sock eventCode gameMode : String) (r : Nat → Nat) (doc : EventDoc)
    (hdoc : st.events eventCode = some doc) (hsock : doc.hostSocketId = sock)
    (hwait : doc.state = "waiting") :
    (startGame st sock eventCode gameMode r false).2 =
      [Effect.timerUpdate eventCode 0,
       Effect.gameStateUpdate eventCode "playing" gameMode
         (modeScrambledOrder gameMode r)] ∧
    (startGame st sock eventCode gameMode r false).1.events = st.events ∧
    ((startGame st sock eventCode gameMode r false).1.events eventCode).map
        EventDoc.state = some "waiting" ∧
    ((startGame st sock eventCode gameMode r false).1.eventTimers eventCode = none ∨
     (startGame st sock eventCode gameMode r false).1.eventTimers eventCode
       = some TimerState.stopped) := by
  refine ⟨?_, ?_, ?_, ?_⟩
  · unfold startGame
    rw [hdoc]
    simp [hsock]
  · unfold startGame
    rw [hdoc]
    cases h : st.eventTimers eventCode with
    | none => simp [hsock, stopTimerIfPresent, h]
    | some t => simp [hsock, stopTimerIfPresent, h]
  · unfold startGame
    rw [hdoc]
    cases h : st.eventTimers eventCode with
    | none => simp [hsock, stopTimerIfPresent, h, hdoc, hwait]
    | some t => simp [hsock, stopTimerIfPresent, h, hdoc, hwait]
  · unfold startGame
    rw [hdoc]
    cases h : st.eventTimers eventCode with
    | none => simp [hsock, stopTimerIfPresent, h, fupdate]
    | some t => simp [hsock, stopTimerIfPresent, h, fupdate]

/-- Witness for claim C10's theorem: the store write fails while the host
starts the waiting event "1234". -/
theorem startGame_broadcast_before_persist_witness :
    (startGame stWaiting "hostA" "1234" "matching-pairs" (fun _ => 0) false).2 =
      [Effect.timerUpdate "1234" 0,
       Effect.gameStateUpdate "1234" "playing" "matching-pairs"
         (modeScrambledOrder "matching-pairs" (fun _ => 0))] ∧
    (startGame stWaiting "hostA" "1234" "matching-pairs" (fun _ => 0) false).1.events
      = stWaiting.events ∧
    ((startGame stWaiting "hostA" "1234" "matching-pairs" (fun _ => 0) false).1.events
        "1234").map EventDoc.state = some "waiting" ∧
    ((startGame stWaiting "hostA" "1234" "matching-pairs" (fun _ => 0) false).1.eventTimers
        "1234" = none ∨
     (startGame stWaiting "hostA" "1234" "matching-pairs" (fun _ => 0) false).1.eventTimers
        "1234" = some TimerState.stopped) :=
  startGame_broadcast_before_persist stWaiting "hostA" "1234" "matching-pairs"
    (fun _ => 0) docHostA (by decide) (by decide) (by decide)

theorem count_endEvent_effects (eventCode : String) :
    ([Effect.timerUpdate eventCode 0, Effect.eventEnded eventCode]).count
      (Effect.eventEnded eventCode) = 1 := by
  simp [List.count_cons]

/-- Claim C3 counterexample: ending the live event "1234" twice in
succession produces TWO eventEnded broadcasts, not exactly one — endEvent
emits eventEnded unconditionally, also when the event no longer exists. -/
theorem endEvent_twice_cex :
    ((endEvent stPlaying "1234").2
      ++ (endEvent (endEvent stPlaying "1234").1 "1234").2).count
        (Effect.eventEnded "1234") = 2 ∧
    ¬ (((endEvent stPlaying "1234").2
      ++ (endEvent (endEvent stPlaying "1234").1 "1234").2).count
        (Effect.eventEnded "1234") = 1) := by
  constructor <;> decide

/-- Claim C3 (amended): endEvent on an already-terminated or nonexistent
code raises no error and performs no state mutation (no store write, no
timer or host-index change), but it is NOT broadcast-silent: every call,
the second included, still broadcasts timerUpdate(0) followed by
eventEnded, so two successive calls produce one eventEnded broadcast per
call — two in total, not one. -/
theorem endEvent_idempotent_state (st : ServerState) (eventCode : String)
    (hne : eventCode ≠ "") (hev : st.events eventCode = none)
    (htm : st.eventTimers eventCode = none) :
    endEvent st eventCode
      = (st, [Effect.timerUpdate eventCode 0, Effect.eventEnded eventCode]) ∧
    ∀ st2 : ServerState,
      (endEvent st2 eventCode).2.count (Effect.eventEnded eventCode) = 1 := by
  constructor
  · unfold endEvent
    simp only [if_neg hne, htm, hev]
  · intro st2
    unfold endEvent
    simp only [if_neg hne]
    cases h1 : st2.eventTimers eventCode with
    | none =>
      simp only [h1]
      cases h2 : st2.events eventCode with
      | none => simp [h2, count_endEvent_effects]
      | some doc => simp [h2, count_endEvent_effects]
    | some t =>
      simp only [h1]
      cases h2 : ({ st2 with eventTimers := fupdate st2.eventTimers eventCode none }).events
          eventCode with
      | none => simp [h2, count_endEvent_effects]
      | some doc => simp [h2, count_endEvent_effects]

/-- Witness for claim C3's amended theorem: a second endEvent on the
already-ended code "1234" (no event, no timer) is a state no-op and still
emits exactly one eventEnded. -/
theorem endEvent_idempotent_state_witness :
    endEvent stNoEvents "1234"
      = (stNoEvents, [Effect.timerUpdate "1234" 0, Effect.eventEnded "1234"]) ∧
    (endEvent stNoEvents "1234").2.count (Effect.eventEnded "1234") = 1 :=
  have h := endEvent_idempotent_state stNoEvents "1234" (by decide) rfl rfl
  ⟨h.1, h.2 stNoEvents⟩

/-- Claim C5 counterexample: in the in-memory revision, a join for the
nonexistent code "1234" does NOT yield a not-found failure — the handler
creates a fresh session with an empty leaderboard (mutating session state)
and answers the joiner with a successful joinedEvent. -/
theorem join_creates_session_cex :
    (joinEventIM memStoreEmpty "1234" "Alice").1 "1234" = some [] ∧
    memStoreEmpty "1234" = none ∧
    (joinEventIM memStoreEmpty "1234" "Alice").2
      = [MemEffect.socketJoin "1234", MemEffect.joinedEvent "1234" []] := by
  refine ⟨?_, rfl, ?_⟩ <;> decide

/-- Claim C5 (amended; it holds of the Firestore revisions, while the
in-memory revision instead creates the missing session — see the
counterexample): a join never mutates session state, and if no session with
the given code exists the joiner gets the invalid-code failure; if the
session is playing, the in-progress failure; otherwise the joining
connection is subscribed to the room, a present host receives playerJoined,
and the joiner receives the current state and gameMode (with the source's
falsy-value defaults) plus the time-ordered leaderboard snapshot. -/
theorem join_semantics (st : ServerState) (eventCode teamName sectionLabel : String) :
    (joinEventFS st eventCode teamName sectionLabel).1 = st ∧
    (st.events eventCode = none →
      (joinEventFS st eventCode teamName sectionLabel).2
        = [Effect.joinResponseErr "Invalid event code."]) ∧
    (∀ doc, st.events eventCode = some doc → doc.state = "playing" →
      (joinEventFS st eventCode teamName sectionLabel).2
        = [Effect.joinResponseErr "Game in progress."]) ∧
    (∀ doc, st.events eventCode = some doc → doc.state ≠ "playing" →
      Effect.socketJoin eventCode ∈ (joinEventFS st eventCode teamName sectionLabel).2 ∧
      (doc.hostSocketId ≠ "" →
        Effect.playerJoined doc.hostSocketId teamName sectionLabel
          ∈ (joinEventFS st eventCode teamName sectionLabel).2) ∧
      Effect.joinResponseOk eventCode
          (if doc.state = "" then "waiting" else doc.state)
          (if doc.currentGameMode = "" then "spot-the-difference"
           else doc.currentGameMode)
        ∈ (joinEventFS st eventCode teamName sectionLabel).2 ∧
      Effect.leaderboardUpdateSock
          (sortFSByTime ((st.leaderboards eventCode).map Prod.snd))
        ∈ (joinEventFS st eventCode teamName sectionLabel).2) := by
  refine ⟨?_, ?_, ?_, ?_⟩
  · unfold joinEventFS
    cases h : st.events eventCode with
    | none => rfl
    | some doc =>
      by_cases hp : doc.state = "playing"
      · simp [hp]
      · simp [hp]
  · intro h
    unfold joinEventFS
    rw [h]
  · intro doc h hp
    unfold joinEventFS
    rw [h]
    simp [hp]
  · intro doc h hp
    unfold joinEventFS
    rw [h]
    refine ⟨?_, ?_, ?_, ?_⟩
    · simp [hp]
    · intro hh
      by_cases hcase : doc.hostSocketId = ""
      · exact absurd hcase hh
      · simp [hp, hcase]
    · simp [hp]
    · simp [hp]

/-- Witness for claim C5's amended theorem: the three join outcomes at
concrete states — missing code, game in progress, and a successful join of
the waiting event "1234" (which subscribes the joiner and leaves the state
untouched). -/
theorem join_semantics_witness :
    (joinEventFS stWaiting "1234" "Foo" "A").1 = stWaiting ∧
    (joinEventFS stNoEvents "1234" "Foo" "A").2
      = [Effect.joinResponseErr "Invalid event code."] ∧
    (joinEventFS stPlaying "1234" "Foo" "A").2
      = [Effect.joinResponseErr "Game in progress."] ∧
    Effect.socketJoin "1234" ∈ (joinEventFS stWaiting "1234" "Foo" "A").2 ∧
    Effect.playerJoined "hostA" "Foo" "A" ∈ (joinEventFS stWaiting "1234" "Foo" "A").2 :=
  have hok := join_semantics stWaiting "1234" "Foo" "A"
  have hmiss := join_semantics stNoEvents "1234" "Foo" "A"
  have hplay := join_semantics stPlaying "1234" "Foo" "A"
  have hbranch := hok.2.2.2 docHostA (by decide) (by decide)
  ⟨hok.1, hmiss.2.1 rfl, hplay.2.2.1 docHostAPlaying (by decide) (by decide),
   hbranch.1, hbranch.2.1 (by decide)⟩

/-- Claim C9: a submitTime call for a session code that does not exist is
silently ignored — the state is returned unchanged and no broadcast is
emitted; and no authority check exists: the handler consults no requester
or host identity at all, so any participant with a truthy name may submit
for themselves on an existing session, which always produces exactly one
broadcast and keeps the session present. -/
theorem submitTime_no_session_ignored (st : MemStore) (eventCode : String)
    (sub : MemSubmission) :
    (st eventCode = none → submitTimeIM st eventCode sub = (st, [])) ∧
    (∀ lb, st eventCode = some lb → sub.name ≠ "" →
      (submitTimeIM st eventCode sub).2.length = 1 ∧
      ((submitTimeIM st eventCode sub).1 eventCode).isSome = true) := by
  constructor
  · intro h
    unfold submitTimeIM
    by_cases hn : sub.name = ""
    · simp [hn]
    · simp [hn, h]
  · intro lb h hn
    unfold submitTimeIM
    simp only [if_neg hn]
    rw [h]
    cases hf : lb.find? (byName sub.name) with
    | none => simp [hf, fupdate]
    | some e => simp [hf, fupdate]

/-- Witness for claim C9's theorem: a submit for the unknown code on the
empty store is a no-op; the same submit on the existing session "7777"
broadcasts once. -/
theorem submitTime_no_session_ignored_witness :
    submitTimeIM memStoreEmpty "7777" { name := "bob", time := 5 }
      = (memStoreEmpty, []) ∧
    ((submitTimeIM memStoreBob "7777" { name := "bob", time := 5 }).2.length = 1 ∧
     ((submitTimeIM memStoreBob "7777" { name := "bob", time := 5 }).1 "7777").isSome
       = true) :=
  ⟨(submitTime_no_session_ignored memStoreEmpty "7777"
      { name := "bob", time := 5 }).1 rfl,
   (submitTime_no_session_ignored memStoreBob "7777"
      { name := "bob", time := 5 }).2 [{ name := "bob", time := 10 }]
      (by decide) (by decide)⟩

/-- Claim C1: for a session that exists (with its invariant of pairwise
distinct participant names) a submitTime call inserts a new entry when none
exists for the participant, and when an entry exists it replaces the stored
time only if the newly submitted time is strictly lower — the new stored
value is the old one unless strictly beaten; consequently across any
sequence of submitTime calls for the same participant the stored time is
non-increasing. -/
theorem leaderboard_monotonic (st : MemStore) (eventCode : String)
    (sub : MemSubmission) (lb : List MemEntry)
    (hlb : st eventCode = some lb) (hn : sub.name ≠ "") (hinv : namesNodup lb) :
    (lb.find? (byName sub.name) = none →
      storedTime (submitTimeIM st eventCode sub).1 eventCode sub.name
        = some sub.time) ∧
    (∀ e, lb.find? (byName sub.name) = some e →
      storedTime (submitTimeIM st eventCode sub).1 eventCode sub.name
        = some (if sub.time < e.time then sub.time else e.time)) ∧
    (∀ ts u w, storedTime st eventCode sub.name = some u →
      storedTime (runSubmits st eventCode sub.name ts) eventCode sub.name = some w →
      w ≤ u) := by
  have hinvAt : boardNodupAt st eventCode := by
    unfold boardNodupAt
    rw [hlb, Option.getD_some]
    exact hinv
  refine ⟨?_, ?_, ?_⟩
  · intro habs
    exact (submitTime_step_absent st eventCode sub.name sub.time hn hinvAt lb hlb habs).1
  · intro e hfind
    have hst : storedTime st eventCode sub.name = some e.time := by
      unfold storedTime
      rw [hlb]
      simp [hfind]
    exact (submitTime_step_present st eventCode sub.name sub.time e.time hn hinvAt hst).1
  · intro ts u w hu hw
    rcases runSubmits_monotone eventCode sub.name hn ts st hinvAt u hu with ⟨w2, hw2, hle⟩
    rw [hw] at hw2
    injection hw2 with hww
    rw [← hww] at hle
    exact hle

/-- Witness for claim C1's theorem: participant "bob" (stored time 10)
submits 7 into session "7777"; the stored time becomes 7 — the better
of the two. -/
theorem leaderboard_monotonic_witness :
    storedTime (submitTimeIM memStoreBob "7777" { name := "bob", time := 7 }).1
        "7777" "bob"
      = some (if (7 : ℚ) < (10 : ℚ) then (7 : ℚ) else (10 : ℚ)) :=
  (leaderboard_monotonic memStoreBob "7777" { name := "bob", time := 7 }
      [{ name := "bob", time := 10 }] (by decide) (by decide) (by decide)).2.1
    { name := "bob", time := 10 } (by decide)

end QuickQuest
